import Mathlib

/-!
Verification of the news-recommendation service: cache layer
(`src/api/db/cache.py`), provider aggregator (`src/api/services/news_fetcher.py`)
and recommendation engine (`src/api/services/recommendation.py`).

The Python code is shallowly embedded: JSON payloads become the inductive type
`Jval` (numbers are modelled as integers; floating-point payloads are outside
the model), the serializer and deserializer of the Python `json` module become
`dumps`/`loads`, the in-memory fallback cache becomes `MemCache` with an
explicit rational clock, and each recommendation algorithm becomes a pure
function over an explicit database snapshot.
-/

namespace NewsRec


/-! ## Cache layer (`src/api/db/cache.py`)

The fallback `InMemoryCache` plus the `get_cache`/`set_cache` wrappers; the
event-loop clock becomes an explicit rational `now` parameter. -/

/-! ## Upstash REST client (`src/api/db/cache.py`, class `UpstashRedisClient`)

`set` embeds the value in the URL path after replacing `/` by the literal
marker `_SLASH_`; `get` returns the stored payload unchanged (no decoding). -/

/-! ## Interaction store (`record_user_interaction`, recommendation.py 234-288) -/

/-! ## Recommendation engine over a database snapshot (recommendation.py) -/

/-! ## Provider aggregator (`src/api/services/news_fetcher.py`) -/

/-- JSON values as produced/consumed by `json.dumps` / `json.loads` in
`src/api/db/cache.py`.  Numbers are modelled as integers. -/
inductive Jval : Type
  | jnull : Jval
  | jbool : Bool → Jval
  | jint : Int → Jval
  | jstr : String → Jval
  | jarr : List Jval → Jval
  | jobj : List (String × Jval) → Jval

open Jval

/-- Character for a decimal digit value below ten. -/
def digitChar (d : Nat) : Char := Char.ofNat (48 + d)

/-- Big-endian decimal digits of a natural number, with explicit fuel
(the fuel is sufficient whenever it exceeds the number). -/
def natDigits : Nat → Nat → List Char
  | 0, _ => []
  | fuel + 1, n =>
    if n < 10 then [digitChar n] else natDigits fuel (n / 10) ++ [digitChar (n % 10)]

/-- Decimal character rendering of an integer, as `json.dumps` prints it. -/
def intChars (n : Int) : List Char :=
  if n < 0 then '-' :: natDigits (n.natAbs + 1) n.natAbs
  else natDigits (n.toNat + 1) n.toNat

/-- JSON string-body escaping: `"` and `\` are backslash-escaped, every other
character is emitted verbatim. -/
def escapeChars : List Char → List Char
  | [] => []
  | c :: cs =>
    if c = '"' ∨ c = '\\' then '\\' :: c :: escapeChars cs else c :: escapeChars cs


mutual

/-- Characters of the `json.dumps` rendering of a value (default separators,
i.e. a comma-space between items and a colon-space after keys). -/
def dumpsChars : Jval → List Char
  | jnull => ['n', 'u', 'l', 'l']
  | jbool true => ['t', 'r', 'u', 'e']
  | jbool false => ['f', 'a', 'l', 's', 'e']
  | jint n => intChars n
  | jstr s => '"' :: (escapeChars s.data ++ ['"'])
  | jarr xs => '[' :: (dumpsItems xs ++ [']'])
  | jobj ms => '\x7b' :: (dumpsMembers ms ++ ['\x7d'])

/-- Comma-space separated renderings of array items. -/
def dumpsItems : List Jval → List Char
  | [] => []
  | [x] => dumpsChars x
  | x :: y :: xs => dumpsChars x ++ ',' :: ' ' :: dumpsItems (y :: xs)

/-- Comma-space separated renderings of object members. -/
def dumpsMembers : List (String × Jval) → List Char
  | [] => []
  | [(k, v)] => '"' :: (escapeChars k.data ++ '"' :: ':' :: ' ' :: dumpsChars v)
  | (k, v) :: m :: ms =>
    ('"' :: (escapeChars k.data ++ '"' :: ':' :: ' ' :: dumpsChars v)) ++
      ',' :: ' ' :: dumpsMembers (m :: ms)
end


/-- The `json.dumps` serialization of a value. -/
def dumps (v : Jval) : String := String.mk (dumpsChars v)

/-- JSON insignificant whitespace characters. -/
def isWs (c : Char) : Bool := c = ' ' ∨ c = '\t' ∨ c = '\n' ∨ c = '\r'

/-- Drop leading JSON whitespace. -/
def skipWs (cs : List Char) : List Char := cs.dropWhile isWs

/-- Parse the body of a JSON string literal after the opening quote, undoing
the backslash escapes; returns the decoded characters and the input remaining
after the closing quote. -/
def strBody : List Char → Option (List Char × List Char)
  | [] => none
  | c :: rest =>
    if c = '"' then some ([], rest)
    else if c = '\\' then
      match rest with
      | [] => none
      | d :: rest2 =>
        match strBody rest2 with
        | some (s, r) => some (d :: s, r)
        | none => none
    else
      match strBody rest with
      | some (s, r) => some (c :: s, r)
      | none => none

/-- Numeric value of a list of decimal digit characters. -/
def digitsVal (cs : List Char) : Nat :=
  cs.foldl (fun a c => 10 * a + (c.toNat - 48)) 0

/-- Parse a nonempty maximal run of decimal digits. -/
def parseNat (cs : List Char) : Option (Nat × List Char) :=
  let ds := cs.takeWhile Char.isDigit
  if ds = [] then none else some (digitsVal ds, cs.dropWhile Char.isDigit)


mutual

/-- Recursive-descent parser for a single JSON value, mirroring `json.loads`;
the fuel strictly exceeds the nesting size of every value it must accept. -/
def parseVal : Nat → List Char → Option (Jval × List Char)
  | 0, _ => none
  | fuel + 1, cs =>
    match skipWs cs with
    | [] => none
    | c :: rest =>
      if c = 'n' then
        if rest.take 3 = ['u', 'l', 'l'] then some (jnull, rest.drop 3) else none
      else if c = 't' then
        if rest.take 3 = ['r', 'u', 'e'] then some (jbool true, rest.drop 3) else none
      else if c = 'f' then
        if rest.take 4 = ['a', 'l', 's', 'e'] then some (jbool false, rest.drop 4) else none
      else if c = '"' then
        match strBody rest with
        | some (s, r) => some (jstr (String.mk s), r)
        | none => none
      else if c = '[' then
        match skipWs rest with
        | [] => none
        | d :: r1 =>
          if d = ']' then some (jarr [], r1)
          else
            match parseItems fuel (d :: r1) with
            | some (vs, r) => some (jarr vs, r)
            | none => none
      else if c = '\x7b' then
        match skipWs rest with
        | [] => none
        | d :: r1 =>
          if d = '\x7d' then some (jobj [], r1)
          else
            match parseMembers fuel (d :: r1) with
            | some (ms, r) => some (jobj ms, r)
            | none => none
      else if c = '-' then
        match parseNat rest with
        | some (n, r) => some (jint (-(n : Int)), r)
        | none => none
      else if c.isDigit then
        match parseNat (c :: rest) with
        | some (n, r) => some (jint (n : Int), r)
        | none => none
      else none

/-- Parse a nonempty comma-separated item list up to and including the
closing square bracket. -/
def parseItems : Nat → List Char → Option (List Jval × List Char)
  | 0, _ => none
  | fuel + 1, cs =>
    match parseVal fuel cs with
    | none => none
    | some (v, r) =>
      match skipWs r with
      | [] => none
      | d :: r2 =>
        if d = ']' then some ([v], r2)
        else if d = ',' then
          match parseItems fuel (skipWs r2) with
          | some (vs, r3) => some (v :: vs, r3)
          | none => none
        else none

/-- Parse a nonempty comma-separated member list up to and including the
closing curly bracket. -/
def parseMembers : Nat → List Char → Option (List (String × Jval) × List Char)
  | 0, _ => none
  | fuel + 1, cs =>
    match cs with
    | [] => none
    | c :: rest =>
      if c = '"' then
        match strBody rest with
        | some (k, r) =>
          match skipWs r with
          | [] => none
          | d :: r2 =>
            if d = ':' then
              match parseVal fuel (skipWs r2) with
              | some (v, r3) =>
                match skipWs r3 with
                | [] => none
                | e :: r4 =>
                  if e = '\x7d' then some ([(String.mk k, v)], r4)
                  else if e = ',' then
                    match parseMembers fuel (skipWs r4) with
                    | some (ms, r5) => some ((String.mk k, v) :: ms, r5)
                    | none => none
                  else none
              | none => none
            else none
        | none => none
      else none
end


/-- The `json.loads` deserialization: parse one value and require only
whitespace to remain, failing (an exception in Python) otherwise. -/
def loads (s : String) : Option Jval :=
  match parseVal (s.data.length + 1) s.data with
  | some (v, r) => if skipWs r = [] then some v else none
  | none => none


mutual

/-- Structural size of a JSON value, the measure for the round-trip proof. -/
def jsize : Jval → Nat
  | jnull => 1
  | jbool _ => 1
  | jint _ => 1
  | jstr _ => 1
  | jarr xs => 1 + jsizeList xs
  | jobj ms => 1 + jsizeMembers ms

/-- Accumulated size of array items. -/
def jsizeList : List Jval → Nat
  | [] => 0
  | x :: xs => 1 + jsize x + jsizeList xs

/-- Accumulated size of object members. -/
def jsizeMembers : List (String × Jval) → Nat
  | [] => 0
  | (_, v) :: ms => 1 + jsize v + jsizeMembers ms
end


/-- A remainder is a safe context for a numeric literal when it does not start
with another digit. -/
def delimOk (rest : List Char) : Prop := ∀ c ∈ rest.head?, c.isDigit = false





/-- Python dict assignment `d[k] = v` on an association list. -/
def listSet {α : Type} : List (String × α) → String → α → List (String × α)
  | [], k, v => [(k, v)]
  | (k2, v2) :: t, k, v => if k2 = k then (k, v) :: t else (k2, v2) :: listSet t k v

/-- Python dict read `d.get(k)` on an association list. -/
def listGet {α : Type} : List (String × α) → String → Option α
  | [], _ => none
  | (k2, v2) :: t, k => if k2 = k then some v2 else listGet t k

/-- Python dict deletion `del d[k]` on an association list. -/
def listDel {α : Type} (l : List (String × α)) (k : String) : List (String × α) :=
  l.filter (fun p => p.1 ≠ k)

/-- The fallback in-process cache: a value dict and an expiry dict, as in class
`InMemoryCache`. -/
structure MemCache where
  cache : List (String × String)
  expiry : List (String × ℚ)

/-- Value returned by `InMemoryCache.get` at clock `now`: an entry whose expiry
is strictly in the past reads as absent (lazy expiry). -/
def memGet (c : MemCache) (now : ℚ) (k : String) : Option String :=
  match listGet c.expiry k with
  | some e => if e < now then none else listGet c.cache k
  | none => listGet c.cache k

/-- State effect of `InMemoryCache.get`: an expired entry is removed on access;
nothing else changes. -/
def memGetState (c : MemCache) (now : ℚ) (k : String) : MemCache :=
  match listGet c.expiry k with
  | some e => if e < now then ⟨listDel c.cache k, listDel c.expiry k⟩ else c
  | none => c

/-- `InMemoryCache.set`: stores the value, and records an expiry time only when
`ex` is truthy (not `None` and nonzero). -/
def memSet (c : MemCache) (now : ℚ) (k v : String) (ex : Option ℚ) : MemCache :=
  ⟨listSet c.cache k v,
    match ex with
    | some t => if t ≠ 0 then listSet c.expiry k (now + t) else c.expiry
    | none => c.expiry⟩

/-- Serialization performed by `set_cache`: strings are stored as-is, everything
else is passed through `json.dumps`. -/
def serializeVal : Jval → String
  | jstr s => s
  | v => dumps v

/-- Embedding of `set_cache(key, value, expire)` over the fallback cache. -/
def set_cache (c : MemCache) (now : ℚ) (k : String) (v : Jval) (ttl : ℚ) : MemCache :=
  memSet c now k (serializeVal v) (some ttl)

/-- Embedding of `get_cache(key)` over the fallback cache: a falsy (empty)
payload is skipped and reads as absent; otherwise the payload is deserialized,
with the raw string returned when deserialization fails, and a `null` payload
surfacing as Python `None`, i.e. absent. -/
def get_cache (c : MemCache) (now : ℚ) (k : String) : Option Jval :=
  match memGet c now k with
  | none => none
  | some raw =>
    if raw = "" then none
    else
      match loads raw with
      | some jnull => none
      | some w => some w
      | none => some (jstr raw)

/-- The character replacement `value.replace("/", "_SLASH_")` performed by
`UpstashRedisClient.set` before embedding the value in the request path. -/
def encodeSlash : List Char → List Char
  | [] => []
  | c :: cs =>
    if c = '/' then '_' :: 'S' :: 'L' :: 'A' :: 'S' :: 'H' :: '_' :: encodeSlash cs
    else c :: encodeSlash cs

/-- Embedding of `UpstashRedisClient.set` (the remote store keeps exactly the
path-encoded payload). -/
def upstash_set (store : List (String × String)) (k v : String) : List (String × String) :=
  listSet store k (String.mk (encodeSlash v.data))

/-- Embedding of `UpstashRedisClient.get`: returns the stored payload as-is. -/
def upstash_get (store : List (String × String)) (k : String) : Option String :=
  listGet store k

/-- A row of the append-only `user_interactions` table. -/
structure Interaction where
  id : Nat
  user_id : String
  article_id : String
  interaction_type : String

/-- State touched by `record_user_interaction`: the interaction log and the
process cache. -/
structure RecState where
  interactions : List Interaction
  cache : MemCache
  next_id : Nat

/-- Embedding of `record_user_interaction`: inserts a fresh immutable row and
then calls `get_cache("recommendations:user:" + user_id)` — a cache READ whose
only state effect is the lazy removal of that single key if it has expired.
No cache entry is deleted or overwritten. -/
def record_user_interaction (st : RecState) (now : ℚ) (u a ty : String) : RecState :=
  { interactions := st.interactions ++ [⟨st.next_id, u, a, ty⟩],
    cache := memGetState st.cache now ("recommendations:user:" ++ u),
    next_id := st.next_id + 1 }

/-- Python truthiness of a deserialized JSON value. -/
def jtruthy : Jval → Bool
  | jnull => false
  | jbool b => b
  | jint n => n ≠ 0
  | jstr s => s ≠ ""
  | jarr xs => !xs.isEmpty
  | jobj ms => !ms.isEmpty

/-- Cache probe at the top of `collaborative_filtering` (recommendation.py
384-389): when the cached deserialized value is truthy it is returned as the
result without recomputation. -/
def collaborative_cached (c : MemCache) (now : ℚ) (u : String) (k : Nat) : Option Jval :=
  match get_cache c now ("collaborative_recommendations:" ++ u ++ ":" ++ toString k) with
  | some v => if jtruthy v then some v else none
  | none => none

/-- A row of the `articles` table, with its publication timestamp as an
ordering key. -/
structure DbArticle where
  id : String
  topic : Option String
  published_at : Int

/-- A row of the `user_interactions` table (fields used by the collaborative
algorithm). -/
structure DbInteraction where
  user_id : String
  article_id : String

/-- Deduplication keeping the first occurrence, as `SELECT DISTINCT` over rows
streamed in order. -/
def dedupFirstAux : List String → List String → List String
  | _, [] => []
  | seen, x :: t => if x ∈ seen then dedupFirstAux seen t else x :: dedupFirstAux (x :: seen) t

/-- First-occurrence deduplication of a string list. -/
def dedupFirst (l : List String) : List String := dedupFirstAux [] l

/-- Distinct article ids the user interacted with. -/
def userArticles (inters : List DbInteraction) (u : String) : List String :=
  dedupFirst ((inters.filter (fun i => i.user_id = u)).map (fun i => i.article_id))

/-- `SELECT COUNT(*) FROM user_interactions WHERE user_id = u`. -/
def interactionCountOf (inters : List DbInteraction) (u : String) : Nat :=
  (inters.filter (fun i => i.user_id = u)).length

/-- Distinct users in order of first appearance. -/
def allUsers (inters : List DbInteraction) : List String :=
  dedupFirst (inters.map (fun i => i.user_id))

/-- Rows of the similar-users query: every other user sharing at least one
article with `u`, with their shared count and total distinct-article count. -/
def neighborRows (inters : List DbInteraction) (u : String) : List (String × Nat × Nat) :=
  let ua := userArticles inters u
  ((allUsers inters).filter (fun v => v ≠ u)).filterMap (fun v =>
    let va := userArticles inters v
    let common := (va.filter (fun a => a ∈ ua)).length
    if common = 0 then none else some (v, common, va.length))

/-- The similar-users result set: ordered by shared-article count descending
(stably), limited to 10. -/
def similarUsers (inters : List DbInteraction) (u : String) : List (String × Nat × Nat) :=
  (List.insertionSort (fun p q : String × Nat × Nat => q.2.1 ≤ p.2.1)
    (neighborRows inters u)).take 10

/-- Embedding of `collaborative_filtering` (recommendation.py 373-525), compute
path, reproducing the control flow of the source: the block from line 452 onward is
nested INSIDE the `for row in similar_users_result` loop, so the function
computes the similarity of the FIRST similar user only, then builds, caches and
returns recommendations drawn from the articles of that single user; when there is
no similar user the loop body never runs and the function falls off the end of
the `try` block, returning Python `None` (modelled as `Option.none`). -/
def collaborative_filtering_db (arts : List DbArticle) (inters : List DbInteraction)
    (u : String) (k : Nat) : Option (List (String × ℚ)) :=
  if interactionCountOf inters u = 0 then some []
  else
    match similarUsers inters u with
    | [] => none
    | (v1, common, total) :: _ =>
      let ua := userArticles inters u
      let unionSize := ua.length + total - common
      let sim : ℚ := if 0 < unionSize then (common : ℚ) / (unionSize : ℚ) else 0
      let candIds := dedupFirst
        ((inters.filter (fun i => i.user_id = v1)).map (fun i => i.article_id))
      let cands := candIds.filterMap (fun aid =>
        match arts.find? (fun a => a.id = aid) with
        | some a => if aid ∈ ua then none else some a
        | none => none)
      let ordered := (List.insertionSort
        (fun a b : DbArticle => b.published_at ≤ a.published_at) cands).take (2 * k)
      let scored := ordered.map (fun a =>
        (a.id,
          if 0 < (inters.filter (fun i => i.user_id = v1 ∧ i.article_id = a.id)).length
          then sim else 0))
      some ((List.insertionSort (fun p q : String × ℚ => q.2 ≤ p.2) scored).take k)

/-- Modelled from the claim for comparison with `collaborative_filtering_db`:
consider up to 10 similar users, score every candidate article not already seen
by the user as the sum of the Jaccard similarities of the neighbors who
interacted with it, sort by score descending and truncate to `k`. -/
def collaborative_filtering_spec (inters : List DbInteraction) (u : String) (k : Nat) :
    List (String × ℚ) :=
  if interactionCountOf inters u = 0 then []
  else
    let ua := userArticles inters u
    let sims := (similarUsers inters u).map (fun p =>
      (p.1, ((p.2.1 : ℚ) / ((ua.length + p.2.2 - p.2.1 : Nat) : ℚ))))
    let candIds := (dedupFirst
      ((inters.filter (fun i => sims.any (fun p => p.1 = i.user_id))).map
        (fun i => i.article_id))).filter (fun aid => aid ∉ ua)
    let scored := candIds.map (fun aid =>
      (aid, ((sims.filter (fun p =>
          0 < (inters.filter (fun i => i.user_id = p.1 ∧ i.article_id = aid)).length)).map
        (fun p => p.2)).sum))
    (List.insertionSort (fun p q : String × ℚ => q.2 ≤ p.2) scored).take k

/-- Embedding of `content_based_filtering` (recommendation.py 290-371): resolve
the seed embedding (empty result when it cannot be resolved), then rank every
other article that has a persisted embedding by the vector distance to the seed
ascending and return the first `k` ids.  The pgvector distance operator is the
abstract parameter `dist`. -/
def content_based_filtering (embs : List (String × List ℚ)) (dist : List ℚ → List ℚ → ℚ)
    (article_id : String) (k : Nat) : List String :=
  match listGet embs article_id with
  | none => []
  | some tv =>
    ((List.insertionSort (fun p q : String × List ℚ => dist tv p.2 ≤ dist tv q.2)
      (embs.filter (fun p => p.1 ≠ article_id))).take k).map (fun p => p.1)

/-- A constant distance function used to instantiate `dist` on concrete inputs. -/
def zeroDist : List ℚ → List ℚ → ℚ := fun _ _ => 0

/-- The topic of an article id in the snapshot. -/
def topicOf (arts : List DbArticle) (aid : String) : Option String :=
  match arts.find? (fun a => a.id = aid) with
  | some a => a.topic
  | none => none

/-- Embedding of `diverse_recommendations` (recommendation.py 636-758),
reproducing the control flow of the source: the topic-diversity passes (lines
725-750) sit after an unconditional `return` inside the `if not
base_recommendations` block and are dead code, so whenever the base pool is
non-empty the function falls off the end of the `try` block and returns Python
`None` (modelled as `Option.none`).  With an empty (or `None`) base pool it
returns one most-recent article per distinct topic (or the most recent articles
when no topics exist). -/
def diverse_recommendations_db (arts : List DbArticle) (embs : List (String × List ℚ))
    (dist : List ℚ → List ℚ → ℚ) (inters : List DbInteraction)
    (user : Option String) (seed : Option String) (k : Nat) : Option (List String) :=
  let base : List String :=
    match seed with
    | some s => content_based_filtering embs dist s (2 * k)
    | none =>
      match user with
      | some u =>
        if 0 < interactionCountOf inters u then
          match collaborative_filtering_db arts inters u (2 * k) with
          | some l => l.map (fun p => p.1)
          | none => []
        else []
      | none => []
  if base = [] then
    let topics := dedupFirst (arts.filterMap (fun a => a.topic))
    if topics = [] then
      some (((List.insertionSort
        (fun a b : DbArticle => b.published_at ≤ a.published_at) arts).take k).map
          (fun a => a.id))
    else
      some ((topics.take k).filterMap (fun t =>
        ((List.insertionSort (fun a b : DbArticle => b.published_at ≤ a.published_at)
          (arts.filter (fun a => a.topic = some t))).head?.map (fun a => a.id))))
  else none

/-- First pass of the claimed greedy diversification: walk the pool taking at
most one article per topic (articles without a topic are skipped) until `k`
slots are filled. -/
def diversePassOne (arts : List DbArticle) : Nat → List String → List String → List String
  | 0, _, _ => []
  | _, [], _ => []
  | slots + 1, aid :: t, seen =>
    match topicOf arts aid with
    | some tp =>
      if tp ∈ seen then diversePassOne arts (slots + 1) t seen
      else aid :: diversePassOne arts slots t (tp :: seen)
    | none => diversePassOne arts (slots + 1) t seen

/-- Second pass of the claimed greedy diversification: fill the remaining slots
from the pool in order, ignoring topics, skipping already-chosen articles. -/
def diversePassTwo : Nat → List String → List String → List String
  | 0, _, _ => []
  | _, [], _ => []
  | slots + 1, aid :: t, chosen =>
    if aid ∈ chosen then diversePassTwo (slots + 1) t chosen
    else aid :: diversePassTwo slots t (aid :: chosen)

/-- Modelled from the claim for comparison with `diverse_recommendations_db`:
greedy one-article-per-topic selection over the base pool, then fill up to `k`
from the pool preserving its original relative order. -/
def diversify (arts : List DbArticle) (k : Nat) (pool : List String) : List String :=
  let p1 := diversePassOne arts k pool []
  p1 ++ diversePassTwo (k - p1.length) pool p1

/-- An article row as seen by the trending query: id, topic and the fractional
hours elapsed since publication. -/
structure TrendArticle where
  id : String
  topic : Option String
  hours_since_published : ℚ

/-- An interaction row as seen by the trending query: target article and the
fractional hours elapsed since the interaction. -/
structure TrendInteraction where
  article_id : String
  hours_ago : ℚ

/-- Interactions on `aid` whose timestamp falls inside the trailing window of
`w` hours (`timestamp > cutoff`). -/
def interactionCountInWindow (inters : List TrendInteraction) (w : ℚ) (aid : String) : Nat :=
  (inters.filter (fun i => decide (i.article_id = aid) && decide (i.hours_ago < w))).length

/-- The trending ranking formula of the SQL `ORDER BY` clause:
`(interaction_count + 1) / (hours_since_published + 1)`. -/
def trendRank (inters : List TrendInteraction) (w : ℚ) (a : TrendArticle) : ℚ :=
  ((interactionCountInWindow inters w a.id : ℚ) + 1) / (a.hours_since_published + 1)

/-- Embedding of `trending_recommendations` (recommendation.py 527-634): keep
the articles published inside the window (optionally matching the category),
order by the ranking formula descending and return the first `k`. -/
def trending_recommendations (arts : List TrendArticle) (inters : List TrendInteraction)
    (category : Option String) (w : ℚ) (k : Nat) : List TrendArticle :=
  let pool := arts.filter (fun a =>
    decide (a.hours_since_published < w) &&
      match category with
      | some c => decide (a.topic = some c)
      | none => true)
  (List.insertionSort
    (fun a b : TrendArticle => trendRank inters w b ≤ trendRank inters w a) pool).take k

/-- Positional scoring loop of `hybrid_recommendations` (recommendation.py
944-960): walking the result list of one algorithm with a running index, an
occurrence of the article at index `i` contributes
`weight * (1 - i / len)`. -/
def algoScoreFrom (w len : ℚ) : ℚ → List String → String → ℚ
  | _, [], _ => 0
  | i, r :: rs, aid =>
    (if r = aid then w * (1 - i / len) else 0) + algoScoreFrom w len (i + 1) rs aid

/-- Score contributed by the result list of one algorithm to an article. -/
def algoScore (w : ℚ) (recs : List String) (aid : String) : ℚ :=
  algoScoreFrom w (recs.length : ℚ) 0 recs aid

/-- Blended score of `hybrid_recommendations` with the weights of the source:
content 0.4, collaborative 0.3, trending 0.2, diverse 0.1 (an algorithm that
was skipped contributes the empty list). -/
def hybridScore (content collab trend diver : List String) (aid : String) : ℚ :=
  algoScore (0.4 : ℚ) content aid + algoScore (0.3 : ℚ) collab aid +
    algoScore (0.2 : ℚ) trend aid + algoScore (0.1 : ℚ) diver aid

/-- A normalized article as produced by the provider adapters (fields relevant
to aggregation and the demo fallback). -/
structure NArt where
  id : String
  title : String
  url : String
  summary : String
  topic : String
  deriving DecidableEq

/-- URL-based deduplication with a seen-set, keeping the first occurrence
(news_fetcher.py 456-462). -/
def dedupByUrl : List String → List NArt → List NArt
  | _, [] => []
  | seen, a :: t =>
    if a.url ∈ seen then dedupByUrl seen t else a :: dedupByUrl (a.url :: seen) t

/-- One external provider: whether it may be used (API key configured and quota
not exhausted) and the articles its adapter returns when asked for `n` items. -/
structure Provider where
  available : Bool
  fetch : Nat → List NArt

/-- The provider cascade of `fetch_news_by_query` (news_fetcher.py 409-443):
NewsAPI first, then GNews, NYTimes and DuckDuckGo, each consulted only while
fewer than `page_size` raw results have been gathered, asked for the missing
amount. -/
def combinedResults (newsapi gnews nytimes ddg : Provider) (page_size : Nat) : List NArt :=
  let r0 := if newsapi.available then newsapi.fetch page_size else []
  let r1 := if r0.length < page_size ∧ gnews.available
    then r0 ++ gnews.fetch (page_size - r0.length) else r0
  let r2 := if r1.length < page_size ∧ nytimes.available
    then r1 ++ nytimes.fetch (page_size - r1.length) else r1
  if r2.length < page_size ∧ ddg.available
    then r2 ++ ddg.fetch (page_size - r2.length) else r2

/-- The static demo article set of `get_demo_news` (news_fetcher.py 727-838). -/
def demo_articles : List NArt :=
  [⟨"1001", "AI Breakthrough: New Model Achieves Human-Level Understanding",
    "https://example.com/ai-breakthrough",
    "Researchers have developed a new AI model that achieves unprecedented levels of language understanding and reasoning, potentially revolutionizing how machines learn from data.",
    "technology"⟩,
   ⟨"1002", "Global Climate Summit Reaches Historic Agreement",
    "https://example.com/climate-summit",
    "Leaders from 195 countries have agreed to accelerate carbon emission reduction targets, pledging to cut emissions by 50% by 2030 compared to 2005 levels.",
    "science"⟩,
   ⟨"1003", "New Study Reveals Benefits of Mediterranean Diet",
    "https://example.com/med-diet-study",
    "A comprehensive 10-year study confirms that adhering to a Mediterranean diet can significantly reduce the risk of heart disease and improve longevity.",
    "health"⟩,
   ⟨"1004", "Space Tourism Company Announces First Civilian Mission to Mars",
    "https://example.com/mars-tourism",
    "A leading space tourism company has unveiled plans for the first civilian mission to Mars, scheduled for 2028, with tickets priced at $50 million per person.",
    "science"⟩,
   ⟨"1005", "Major Cybersecurity Breach Affects Millions",
    "https://example.com/cyber-breach",
    "A sophisticated cyber attack has compromised personal data of over 10 million users across multiple platforms, raising concerns about digital security measures.",
    "technology"⟩,
   ⟨"1006", "Renewable Energy Surpasses Fossil Fuels for First Time",
    "https://example.com/renewable-milestone",
    "In a historic shift, renewable energy sources have generated more electricity than fossil fuels globally for the first time, marking a significant milestone in the transition to clean energy.",
    "science"⟩,
   ⟨"1007", "Major Sports League Announces Expansion Teams",
    "https://example.com/sports-expansion",
    "A major professional sports league has announced three new expansion teams to begin play in the 2025 season, bringing the total number of franchises to 35.",
    "sports"⟩,
   ⟨"1008", "New Breakthrough in Quantum Computing Announced",
    "https://example.com/quantum-breakthrough",
    "Scientists have achieved a new milestone in quantum computing, demonstrating a 1000-qubit processor capable of solving complex problems that would take classical computers millennia.",
    "technology"⟩,
   ⟨"1009", "Global Economic Forecast Shows Strong Recovery",
    "https://example.com/economic-forecast",
    "Leading economists predict a robust global economic recovery in the coming year, with growth rates expected to exceed pre-pandemic levels in most developed nations.",
    "business"⟩,
   ⟨"1010", "Archaeologists Discover Ancient Lost City",
    "https://example.com/archaeological-discovery",
    "An international team of archaeologists has uncovered the ruins of a previously unknown ancient city dating back over 4,000 years, potentially rewriting our understanding of early civilization.",
    "general"⟩]

/-- Embedding of `get_demo_news` (news_fetcher.py 724-865): case-insensitive
substring filter on title or summary for a query, exact lowercased topic match
for a category, then 1-indexed pagination. -/
def get_demo_news (query : Option String) (category : Option String)
    (page page_size : Nat) : List NArt :=
  let f1 := match query with
    | some q => demo_articles.filter (fun a : NArt =>
        decide (q.toLower.data <:+: a.title.toLower.data) ||
          decide (q.toLower.data <:+: a.summary.toLower.data))
    | none => demo_articles
  let f2 := match category with
    | some c => f1.filter (fun a : NArt => a.topic.toLower = c.toLower)
    | none => f1
  (f2.drop ((page - 1) * page_size)).take page_size

/-- Embedding of `fetch_news_by_query` (news_fetcher.py 409-469): the provider
cascade, the demo fallback when it produced nothing, truncation to `page_size`
and first-occurrence URL deduplication (the `articles` field of the returned
envelope). -/
def fetch_news_by_query (newsapi gnews nytimes ddg : Provider) (query : String)
    (page page_size : Nat) : List NArt :=
  let results := combinedResults newsapi gnews nytimes ddg page_size
  if results = [] then get_demo_news (some query) none page page_size
  else dedupByUrl [] (results.take page_size)

/-- The concrete interaction log used in the trending instance: ten window
interactions on `p1` and two on `p2`, all 2 hours ago. -/
def trendTestInters : List TrendInteraction :=
  [⟨"p1", 2⟩, ⟨"p1", 2⟩, ⟨"p1", 2⟩, ⟨"p1", 2⟩, ⟨"p1", 2⟩,
   ⟨"p1", 2⟩, ⟨"p1", 2⟩, ⟨"p1", 2⟩, ⟨"p1", 2⟩, ⟨"p1", 2⟩,
   ⟨"p2", 2⟩, ⟨"p2", 2⟩]

/-- A disabled provider used in the C4 witness. -/
def pEmpty : Provider := ⟨false, fun _ => []⟩

/-- A provider returning a duplicate url, used in the C4 witness. -/
def pDup : Provider :=
  ⟨true, fun _ => [⟨"i1", "t1", "u1", "s1", "c1"⟩, ⟨"i2", "t2", "u1", "s2", "c2"⟩,
    ⟨"i3", "t3", "u2", "s3", "c3"⟩]⟩

/-- The article snapshot of the C5 failing input. -/
def c5Arts : List DbArticle := [⟨"a1", none, 3⟩, ⟨"a2", none, 2⟩, ⟨"c1", none, 1⟩]

/-- The interaction log of the C5 failing input: user `U` read `a1`,`a2`;
neighbor `V1` read exactly the same two articles; neighbor `V2` shares `a1`
and additionally read `c1`. -/
def c5Inters : List DbInteraction :=
  [⟨"U", "a1"⟩, ⟨"U", "a2"⟩, ⟨"V1", "a1"⟩, ⟨"V1", "a2"⟩, ⟨"V2", "a1"⟩, ⟨"V2", "c1"⟩]

/-- The article snapshot of the C6 failing input. -/
def c6Arts : List DbArticle := [⟨"s", some "t1", 2⟩, ⟨"b", some "t2", 1⟩]

/-- The embedding table of the C6 failing input: the seed `s` and one similar
article `b`. -/
def c6Embs : List (String × List ℚ) := [("s", [1]), ("b", [1])]

theorem delimOk_nil : delimOk [] := by intro c hc; simp at hc

theorem delimOk_cons {c : Char} (h : c.isDigit = false) (rest : List Char) :
    delimOk (c :: rest) := by
  intro d hd
  simp only [List.head?] at hd
  cases hd
  exact h

theorem mk_data (s : String) : String.mk s.data = s := rfl

theorem skipWs_cons {c : Char} (h : isWs c = false) (cs : List Char) :
    skipWs (c :: cs) = c :: cs := by
  simp [skipWs, List.dropWhile_cons, h]

theorem skipWs_space (cs : List Char) : skipWs (' ' :: cs) = skipWs cs := by
  simp [skipWs, List.dropWhile_cons, show isWs ' ' = true from rfl]

/-- Concrete side facts about decimal digit characters, obtained by checking
the ten digits. -/
theorem digitChar_side {d : Nat} (h : d < 10) :
    (digitChar d).isDigit = true ∧ (digitChar d).toNat = 48 + d ∧
      isWs (digitChar d) = false ∧ digitChar d ≠ ']' ∧ digitChar d ≠ '\x7d' ∧
      digitChar d ≠ 'n' ∧ digitChar d ≠ 't' ∧ digitChar d ≠ 'f' ∧
      digitChar d ≠ '"' ∧ digitChar d ≠ '[' ∧ digitChar d ≠ '\x7b' ∧
      digitChar d ≠ '-' ∧ digitChar d ≠ ',' := by
  interval_cases d <;> exact ⟨rfl, rfl, rfl, by decide, by decide, by decide, by decide,
    by decide, by decide, by decide, by decide, by decide, by decide⟩

theorem digitsVal_append_digit (xs : List Char) {d : Nat} (h : d < 10) :
    digitsVal (xs ++ [digitChar d]) = 10 * digitsVal xs + d := by
  simp [digitsVal, List.foldl_append, (digitChar_side h).2.1]

/-- Every output of `natDigits` (with enough fuel) is a nonempty digit string
whose leading character is a digit and whose value reads back to the input. -/
theorem natDigits_spec :
    ∀ n fuel, n < fuel →
      (∀ c ∈ natDigits fuel n, c.isDigit = true) ∧
      (∃ d tl, d < 10 ∧ natDigits fuel n = digitChar d :: tl) ∧
      digitsVal (natDigits fuel n) = n := by
  intro n
  induction n using Nat.strong_induction_on with
  | _ n IH =>
    intro fuel hf
    obtain ⟨f, rfl⟩ : ∃ f, fuel = f + 1 := ⟨fuel - 1, by omega⟩
    by_cases h10 : n < 10
    · refine ⟨?_, ⟨n, [], h10, by simp [natDigits, h10]⟩, ?_⟩
      · intro c hc
        simp [natDigits, h10] at hc
        subst hc
        exact (digitChar_side h10).1
      · simp [natDigits, h10, digitsVal, (digitChar_side h10).2.1]
    · have hpos : 0 < n := by omega
      have hdiv : n / 10 < n := Nat.div_lt_self hpos (by omega)
      have hdf : n / 10 < f := by omega
      obtain ⟨hall, ⟨d, tl, hd, hcons⟩, hval⟩ := IH (n / 10) hdiv f hdf
      have hmod : n % 10 < 10 := Nat.mod_lt _ (by omega)
      refine ⟨?_, ?_, ?_⟩
      · intro c hc
        simp [natDigits, h10] at hc
        rcases hc with hc | hc
        · exact hall c hc
        · subst hc
          exact (digitChar_side hmod).1
      · exact ⟨d, tl ++ [digitChar (n % 10)], hd, by simp [natDigits, h10, hcons]⟩
      · simp only [natDigits, h10, if_false]
        rw [digitsVal_append_digit _ hmod, hval]
        omega

theorem takeWhile_append_all {p : Char → Bool} {ds : List Char} (rest : List Char)
    (h : ∀ c ∈ ds, p c = true) :
    (ds ++ rest).takeWhile p = ds ++ rest.takeWhile p := by
  induction ds with
  | nil => simp
  | cons c cs ih =>
    have hc : p c = true := h c (by simp)
    simp only [List.cons_append, List.takeWhile_cons, hc, if_true]
    rw [ih fun d hd => h d (by simp [hd])]

theorem dropWhile_append_all {p : Char → Bool} {ds : List Char} (rest : List Char)
    (h : ∀ c ∈ ds, p c = true) :
    (ds ++ rest).dropWhile p = rest.dropWhile p := by
  induction ds with
  | nil => simp
  | cons c cs ih =>
    have hc : p c = true := h c (by simp)
    simp only [List.cons_append, List.dropWhile_cons, hc, if_true]
    exact ih fun d hd => h d (by simp [hd])

theorem takeWhile_eq_nil {rest : List Char} (h : delimOk rest) :
    rest.takeWhile Char.isDigit = [] := by
  cases rest with
  | nil => rfl
  | cons c cs =>
    have := h c (by simp)
    simp [List.takeWhile_cons, this]

theorem dropWhile_eq_self {rest : List Char} (h : delimOk rest) :
    rest.dropWhile Char.isDigit = rest := by
  cases rest with
  | nil => rfl
  | cons c cs =>
    have := h c (by simp)
    simp [List.dropWhile_cons, this]

/-- Parsing a printed natural number consumes exactly its digits. -/
theorem parseNat_natDigits {n fuel : Nat} (rest : List Char) (hf : n < fuel)
    (hr : delimOk rest) :
    parseNat (natDigits fuel n ++ rest) = some (n, rest) := by
  obtain ⟨hall, ⟨d, tl, hd, hcons⟩, hval⟩ := natDigits_spec n fuel hf
  unfold parseNat
  rw [takeWhile_append_all rest hall, takeWhile_eq_nil hr,
    dropWhile_append_all rest hall, dropWhile_eq_self hr]
  simp only [List.append_nil]
  rw [if_neg (by simp [hcons])]
  rw [hval]

/-- Unescaping a printed string body stops exactly at the closing quote. -/
theorem strBody_escape : ∀ (s : List Char) (rest : List Char),
    strBody (escapeChars s ++ '"' :: rest) = some (s, rest)
  | [], rest => by
    rw [strBody.eq_def]
    simp [escapeChars]
  | c :: cs, rest => by
    by_cases h : c = '"' ∨ c = '\\'
    · simp only [escapeChars, h, if_true, List.cons_append]
      rw [strBody.eq_def]
      simp only [show ('\\' : Char) = '"' ↔ False by simp, if_false, if_pos rfl]
      rw [strBody_escape cs rest]
      simp
    · have h1 : ¬ c = '"' := fun hc => h (Or.inl hc)
      have h2 : ¬ c = '\\' := fun hc => h (Or.inr hc)
      simp only [escapeChars, h, if_false, List.cons_append]
      rw [strBody.eq_def]
      simp only [h1, h2, if_false]
      rw [strBody_escape cs rest]

/-- The rendering of any value starts with a non-whitespace character that is
not a closing bracket. -/
theorem dumpsChars_head (v : Jval) :
    ∃ c cs, dumpsChars v = c :: cs ∧ isWs c = false ∧ c ≠ ']' ∧ c ≠ '\x7d' := by
  cases v with
  | jnull => exact ⟨'n', _, rfl, rfl, by decide, by decide⟩
  | jbool b =>
    cases b with
    | true => exact ⟨'t', _, rfl, rfl, by decide, by decide⟩
    | false => exact ⟨'f', _, rfl, rfl, by decide, by decide⟩
  | jint n =>
    by_cases hn : n < 0
    · exact ⟨'-', natDigits (n.natAbs + 1) n.natAbs,
        by simp [dumpsChars, intChars, hn], rfl, by decide, by decide⟩
    · obtain ⟨_, ⟨d, tl, hd, hcons⟩, _⟩ :=
        natDigits_spec n.toNat (n.toNat + 1) (Nat.lt_succ_self _)
      obtain ⟨_, _, hws, hbr, hbr2, _⟩ := digitChar_side hd
      exact ⟨digitChar d, tl, by simp [dumpsChars, intChars, hn, hcons], hws, hbr, hbr2⟩
  | jstr s => exact ⟨'"', _, rfl, rfl, by decide, by decide⟩
  | jarr xs => exact ⟨'[', _, rfl, rfl, by decide, by decide⟩
  | jobj ms => exact ⟨'\x7b', _, rfl, rfl, by decide, by decide⟩

/-- A nonempty item list also renders with a safe leading character. -/
theorem dumpsItems_head (x : Jval) (tl : List Jval) :
    ∃ c cs, dumpsItems (x :: tl) = c :: cs ∧ isWs c = false ∧ c ≠ ']' ∧ c ≠ '\x7d' := by
  obtain ⟨c, cs0, hx, h1, h2, h3⟩ := dumpsChars_head x
  cases tl with
  | nil => exact ⟨c, cs0, by simp [dumpsItems, hx], h1, h2, h3⟩
  | cons y t =>
    exact ⟨c, cs0 ++ ',' :: ' ' :: dumpsItems (y :: t), by simp [dumpsItems, hx], h1, h2, h3⟩

/-- A nonempty member list renders starting with the opening quote of its key. -/
theorem dumpsMembers_head (m : String × Jval) (tl : List (String × Jval)) :
    ∃ cs, dumpsMembers (m :: tl) = '"' :: cs := by
  obtain ⟨k, v⟩ := m
  cases tl with
  | nil => exact ⟨_, rfl⟩
  | cons m2 t => exact ⟨_, rfl⟩

mutual

/-- Round trip: parsing the rendering of a value (in any non-digit context)
returns exactly that value. -/
theorem parse_dumps : ∀ (v : Jval) (fuel : Nat) (rest : List Char),
    jsize v < fuel → delimOk rest →
    parseVal fuel (dumpsChars v ++ rest) = some (v, rest)
  | v, fuel, rest, hf, hr => by
    obtain ⟨f, rfl⟩ : ∃ f, fuel = f + 1 := ⟨fuel - 1, by omega⟩
    cases v with
    | jnull =>
      simp only [dumpsChars, List.cons_append, List.nil_append]
      rw [parseVal, skipWs_cons (by decide)]
      simp
    | jbool b =>
      cases b with
      | true =>
        simp only [dumpsChars, List.cons_append, List.nil_append]
        rw [parseVal, skipWs_cons (by decide)]
        simp
      | false =>
        simp only [dumpsChars, List.cons_append, List.nil_append]
        rw [parseVal, skipWs_cons (by decide)]
        simp
    | jint n =>
      by_cases hn : n < 0
      · simp only [dumpsChars, intChars, hn, if_true, List.cons_append]
        rw [parseVal, skipWs_cons (by decide)]
        simp only [show ('-' : Char) = 'n' ↔ False by simp, show ('-' : Char) = 't' ↔ False by simp,
          show ('-' : Char) = 'f' ↔ False by simp, show ('-' : Char) = '"' ↔ False by simp,
          show ('-' : Char) = '[' ↔ False by simp, show ('-' : Char) = '\x7b' ↔ False by simp,
          if_false, if_pos rfl]
        rw [parseNat_natDigits rest (Nat.lt_succ_self _) hr]
        simp
        rw [abs_of_neg hn, neg_neg]
      · obtain ⟨hall, ⟨d, tl, hd, hcons⟩, hval⟩ :=
          natDigits_spec n.toNat (n.toNat + 1) (Nat.lt_succ_self _)
        obtain ⟨hdig, _, hws, _, _, hn1, hn2, hn3, hn4, hn5, hn6, hn7, _⟩ := digitChar_side hd
        simp only [dumpsChars, intChars, hn, if_false, hcons, List.cons_append]
        rw [parseVal, skipWs_cons hws]
        simp only [if_neg hn1, if_neg hn2, if_neg hn3, if_neg hn4, if_neg hn5, if_neg hn6,
          if_neg hn7, hdig, if_true]
        rw [show digitChar d :: (tl ++ rest) = natDigits (n.toNat + 1) n.toNat ++ rest by
          rw [hcons]; simp]
        rw [parseNat_natDigits rest (Nat.lt_succ_self _) hr]
        have : ((n.toNat : Nat) : Int) = n := by omega
        simp [this]
    | jstr s =>
      simp only [dumpsChars, List.cons_append, List.append_assoc, List.nil_append]
      rw [parseVal, skipWs_cons (by decide)]
      simp only [show ('"' : Char) = 'n' ↔ False by simp, show ('"' : Char) = 't' ↔ False by simp,
        show ('"' : Char) = 'f' ↔ False by simp, if_false, if_pos rfl]
      rw [strBody_escape s.data rest]
      simp [mk_data]
    | jarr xs =>
      cases xs with
      | nil =>
        simp only [dumpsChars, dumpsItems, List.cons_append, List.nil_append]
        rw [parseVal, skipWs_cons (by decide)]
        simp only [show ('[' : Char) = 'n' ↔ False by simp, show ('[' : Char) = 't' ↔ False by simp,
          show ('[' : Char) = 'f' ↔ False by simp, show ('[' : Char) = '"' ↔ False by simp,
          if_false, if_pos rfl]
        rw [skipWs_cons (by decide)]
        simp
      | cons x tl =>
        obtain ⟨c, cs1, hitems, hws, hbr, _⟩ := dumpsItems_head x tl
        have hsz : jsizeList (x :: tl) < f := by
          simp only [jsize] at hf
          omega
        simp only [dumpsChars, List.cons_append, List.append_assoc, List.nil_append]
        rw [parseVal, skipWs_cons (by decide)]
        simp only [show ('[' : Char) = 'n' ↔ False by simp, show ('[' : Char) = 't' ↔ False by simp,
          show ('[' : Char) = 'f' ↔ False by simp, show ('[' : Char) = '"' ↔ False by simp,
          if_false, if_pos rfl]
        rw [show dumpsItems (x :: tl) ++ ']' :: rest = c :: (cs1 ++ ']' :: rest) by
          rw [hitems]; simp]
        rw [skipWs_cons hws]
        simp only [if_neg hbr]
        rw [show c :: (cs1 ++ ']' :: rest) = dumpsItems (x :: tl) ++ ']' :: rest by
          rw [hitems]; simp]
        rw [parse_dumps_items (x :: tl) f rest (by simp) hsz]
        simp
    | jobj ms =>
      cases ms with
      | nil =>
        simp only [dumpsChars, dumpsMembers, List.cons_append, List.nil_append]
        rw [parseVal, skipWs_cons (by decide)]
        simp only [show ('\x7b' : Char) = 'n' ↔ False by simp,
          show ('\x7b' : Char) = 't' ↔ False by simp, show ('\x7b' : Char) = 'f' ↔ False by simp,
          show ('\x7b' : Char) = '"' ↔ False by simp, show ('\x7b' : Char) = '[' ↔ False by simp,
          if_false, if_pos rfl]
        rw [skipWs_cons (by decide)]
        simp
      | cons m tl =>
        obtain ⟨cs1, hmem⟩ := dumpsMembers_head m tl
        have hsz : jsizeMembers (m :: tl) < f := by
          simp only [jsize] at hf
          omega
        simp only [dumpsChars, List.cons_append, List.append_assoc, List.nil_append]
        rw [parseVal, skipWs_cons (by decide)]
        simp only [show ('\x7b' : Char) = 'n' ↔ False by simp,
          show ('\x7b' : Char) = 't' ↔ False by simp, show ('\x7b' : Char) = 'f' ↔ False by simp,
          show ('\x7b' : Char) = '"' ↔ False by simp, show ('\x7b' : Char) = '[' ↔ False by simp,
          if_false, if_pos rfl]
        rw [show dumpsMembers (m :: tl) ++ '\x7d' :: rest = '"' :: (cs1 ++ '\x7d' :: rest) by
          rw [hmem]; simp]
        rw [skipWs_cons (by decide)]
        simp only [show ('"' : Char) = '\x7d' ↔ False by simp, if_false]
        rw [show ('"' : Char) :: (cs1 ++ '\x7d' :: rest) = dumpsMembers (m :: tl) ++ '\x7d' :: rest by
          rw [hmem]; simp]
        rw [parse_dumps_members (m :: tl) f rest (by simp) hsz]
        simp

/-- Round trip for nonempty array item lists including the closing bracket. -/
theorem parse_dumps_items : ∀ (xs : List Jval) (fuel : Nat) (rest : List Char),
    xs ≠ [] → jsizeList xs < fuel →
    parseItems fuel (dumpsItems xs ++ ']' :: rest) = some (xs, rest)
  | [], _, _, hne, _ => absurd rfl hne
  | [x], fuel, rest, _, hf => by
    obtain ⟨f, rfl⟩ : ∃ f, fuel = f + 1 := ⟨fuel - 1, by omega⟩
    have hsx : jsize x < f := by
      simp only [jsizeList] at hf
      omega
    simp only [dumpsItems]
    rw [parseItems, parse_dumps x f (']' :: rest) hsx (delimOk_cons (by decide) rest)]
    simp [skipWs_cons (show isWs ']' = false from by decide)]
  | x :: y :: t, fuel, rest, _, hf => by
    obtain ⟨f, rfl⟩ : ∃ f, fuel = f + 1 := ⟨fuel - 1, by omega⟩
    have hsx : jsize x < f := by
      simp only [jsizeList] at hf
      omega
    have hst : jsizeList (y :: t) < f := by
      simp only [jsizeList] at hf ⊢
      omega
    obtain ⟨c, cs1, hitems, hws, _, _⟩ := dumpsItems_head y t
    have hskip : skipWs (dumpsItems (y :: t) ++ ']' :: rest) =
        dumpsItems (y :: t) ++ ']' :: rest := by
      simp [hitems, skipWs_cons hws]
    simp only [dumpsItems, List.cons_append, List.append_assoc, List.nil_append]
    rw [parseItems]
    rw [parse_dumps x f (',' :: ' ' :: (dumpsItems (y :: t) ++ ']' :: rest)) hsx
      (delimOk_cons (by decide) _)]
    simp [skipWs_cons (show isWs ',' = false from by decide), skipWs_space, hskip,
      parse_dumps_items (y :: t) f rest (by simp) hst]

/-- Round trip for nonempty object member lists including the closing brace. -/
theorem parse_dumps_members : ∀ (ms : List (String × Jval)) (fuel : Nat) (rest : List Char),
    ms ≠ [] → jsizeMembers ms < fuel →
    parseMembers fuel (dumpsMembers ms ++ '\x7d' :: rest) = some (ms, rest)
  | [], _, _, hne, _ => absurd rfl hne
  | [(k, v)], fuel, rest, _, hf => by
    obtain ⟨f, rfl⟩ : ∃ f, fuel = f + 1 := ⟨fuel - 1, by omega⟩
    have hsv : jsize v < f := by
      simp only [jsizeMembers] at hf
      omega
    obtain ⟨c0, cs0, hv, hws0, _, _⟩ := dumpsChars_head v
    have hskip : skipWs (dumpsChars v ++ '\x7d' :: rest) = dumpsChars v ++ '\x7d' :: rest := by
      simp [hv, skipWs_cons hws0]
    simp only [dumpsMembers, List.cons_append, List.append_assoc, List.nil_append]
    rw [parseMembers]
    simp only [if_pos rfl]
    rw [strBody_escape k.data (':' :: ' ' :: (dumpsChars v ++ '\x7d' :: rest))]
    simp [skipWs_cons (show isWs ':' = false from by decide), skipWs_space, hskip,
      parse_dumps v f ('\x7d' :: rest) hsv (delimOk_cons (by decide) rest),
      skipWs_cons (show isWs '\x7d' = false from by decide), mk_data]
  | (k, v) :: m :: t, fuel, rest, _, hf => by
    obtain ⟨f, rfl⟩ : ∃ f, fuel = f + 1 := ⟨fuel - 1, by omega⟩
    have hsv : jsize v < f := by
      simp only [jsizeMembers] at hf
      omega
    have hst : jsizeMembers (m :: t) < f := by
      simp only [jsizeMembers] at hf ⊢
      omega
    obtain ⟨c0, cs0, hv, hws0, _, _⟩ := dumpsChars_head v
    obtain ⟨cs1, hmem⟩ := dumpsMembers_head m t
    have hskip : skipWs (dumpsChars v ++ ',' :: ' ' :: (dumpsMembers (m :: t) ++ '\x7d' :: rest)) =
        dumpsChars v ++ ',' :: ' ' :: (dumpsMembers (m :: t) ++ '\x7d' :: rest) := by
      simp [hv, skipWs_cons hws0]
    have hskip2 : skipWs (dumpsMembers (m :: t) ++ '\x7d' :: rest) =
        dumpsMembers (m :: t) ++ '\x7d' :: rest := by
      simp [hmem, skipWs_cons (show isWs '"' = false from by decide)]
    simp only [dumpsMembers, List.cons_append, List.append_assoc, List.nil_append]
    rw [parseMembers]
    simp only [if_pos rfl]
    rw [strBody_escape k.data
      (':' :: ' ' :: (dumpsChars v ++ ',' :: ' ' :: (dumpsMembers (m :: t) ++ '\x7d' :: rest)))]
    simp [skipWs_cons (show isWs ':' = false from by decide), skipWs_space, hskip, hskip2,
      parse_dumps v f (',' :: ' ' :: (dumpsMembers (m :: t) ++ '\x7d' :: rest)) hsv
        (delimOk_cons (by decide) _),
      skipWs_cons (show isWs ',' = false from by decide),
      parse_dumps_members (m :: t) f rest (by simp) hst, mk_data]
end

mutual

/-- The rendering of a value is at least as long as its size measure. -/
theorem jsize_le_len : ∀ v : Jval, jsize v ≤ (dumpsChars v).length
  | jnull => by simp [jsize, dumpsChars]
  | jbool b => by cases b <;> simp [jsize, dumpsChars]
  | jint n => by
    have h : (intChars n).length ≥ 1 := by
      unfold intChars
      by_cases hn : n < 0
      · simp [hn]
      · simp only [hn, if_false]
        obtain ⟨_, ⟨d, tl, _, hcons⟩, _⟩ :=
          natDigits_spec n.toNat (n.toNat + 1) (Nat.lt_succ_self _)
        simp [hcons]
    simp only [jsize, dumpsChars]
    omega
  | jstr s => by simp [jsize, dumpsChars]
  | jarr xs => by
    have h := jsizeList_le_len xs
    simp only [jsize, dumpsChars, List.length_cons, List.length_append, List.length_singleton]
    omega
  | jobj ms => by
    have h := jsizeMembers_le_len ms
    simp only [jsize, dumpsChars, List.length_cons, List.length_append, List.length_singleton]
    omega

/-- Size bound for rendered item lists. -/
theorem jsizeList_le_len : ∀ xs : List Jval, jsizeList xs ≤ 1 + (dumpsItems xs).length
  | [] => by simp [jsizeList, dumpsItems]
  | [x] => by
    have h := jsize_le_len x
    simp only [jsizeList, dumpsItems]
    omega
  | x :: y :: t => by
    have h1 := jsize_le_len x
    have h2 := jsizeList_le_len (y :: t)
    have e1 : jsizeList (x :: y :: t) = 1 + jsize x + jsizeList (y :: t) := by
      simp [jsizeList]
    have e2 : (dumpsItems (x :: y :: t)).length =
        (dumpsChars x).length + 2 + (dumpsItems (y :: t)).length := by
      simp [dumpsItems]
      omega
    omega

/-- Size bound for rendered member lists. -/
theorem jsizeMembers_le_len :
    ∀ ms : List (String × Jval), jsizeMembers ms ≤ 1 + (dumpsMembers ms).length
  | [] => by simp [jsizeMembers, dumpsMembers]
  | [(k, v)] => by
    have h := jsize_le_len v
    simp only [jsizeMembers, dumpsMembers, List.length_cons, List.length_append]
    omega
  | (k, v) :: m :: t => by
    have h1 := jsize_le_len v
    have h2 := jsizeMembers_le_len (m :: t)
    have e1 : jsizeMembers ((k, v) :: m :: t) = 1 + jsize v + jsizeMembers (m :: t) := by
      simp [jsizeMembers]
    have e2 : (dumpsMembers ((k, v) :: m :: t)).length =
        (escapeChars k.data).length + 6 + (dumpsChars v).length +
          (dumpsMembers (m :: t)).length := by
      simp [dumpsMembers]
      omega
    omega
end

/-- The central guarantee of the Python `json` module as modelled here: parsing a
serialized value returns exactly that value. -/
theorem loads_dumps (v : Jval) : loads (dumps v) = some v := by
  unfold loads dumps
  have hb : jsize v < (dumpsChars v).length + 1 := by
    have := jsize_le_len v
    omega
  have h := parse_dumps v ((dumpsChars v).length + 1) [] hb delimOk_nil
  rw [List.append_nil] at h
  rw [show (String.mk (dumpsChars v)).data = dumpsChars v from rfl, h]
  simp [skipWs]

/-- Serializations are never the empty string. -/
theorem dumps_ne_empty (v : Jval) : dumps v ≠ "" := by
  obtain ⟨c, cs, hc, _, _, _⟩ := dumpsChars_head v
  unfold dumps
  rw [hc]
  intro h
  have : (String.mk (c :: cs)).data = ("" : String).data := by rw [h]
  simp at this

theorem listSet_get_same {α : Type} (l : List (String × α)) (k : String) (v : α) :
    listGet (listSet l k v) k = some v := by
  induction l with
  | nil => simp [listSet, listGet]
  | cons p t ih =>
    obtain ⟨k2, v2⟩ := p
    by_cases h : k2 = k
    · simp [listSet, listGet, h]
    · simp [listSet, listGet, h, ih]

theorem listSet_get_other {α : Type} (l : List (String × α)) {k k2 : String} (v : α)
    (h : k2 ≠ k) : listGet (listSet l k v) k2 = listGet l k2 := by
  induction l with
  | nil => simp [listSet, listGet, Ne.symm h]
  | cons p t ih =>
    obtain ⟨k3, v3⟩ := p
    by_cases h3 : k3 = k
    · subst h3
      simp [listSet, listGet, Ne.symm h]
    · simp only [listSet, h3, if_false]
      by_cases h4 : k3 = k2
      · simp [listGet, h4]
      · simp [listGet, h4, ih]

theorem serializeVal_eq_dumps (v : Jval) (h : ∀ s, v ≠ jstr s) : serializeVal v = dumps v := by
  cases v with
  | jstr s => exact absurd rfl (h s)
  | jnull => rfl
  | jbool b => rfl
  | jint n => rfl
  | jarr xs => rfl
  | jobj ms => rfl

theorem set_cache_get_mem (c : MemCache) (now : ℚ) (k : String) (v : Jval) (ttl : ℚ)
    (httl : 0 < ttl) :
    listGet (set_cache c now k v ttl).cache k = some (serializeVal v) ∧
    listGet (set_cache c now k v ttl).expiry k = some (now + ttl) := by
  constructor
  · simp only [set_cache, memSet]
    exact listSet_get_same _ _ _
  · simp only [set_cache, memSet, ne_of_gt httl, ne_eq, not_false_eq_true, if_true]
    exact listSet_get_same _ _ _

theorem memGet_set_cache (c : MemCache) (now : ℚ) (k : String) (v : Jval) (ttl : ℚ)
    (httl : 0 < ttl) (T : ℚ) :
    memGet (set_cache c now k v ttl) T k =
      if now + ttl < T then none else some (serializeVal v) := by
  obtain ⟨h1, h2⟩ := set_cache_get_mem c now k v ttl httl
  unfold memGet
  rw [h2]
  by_cases h : now + ttl < T
  · simp [h]
  · simp [h, h1]

theorem memGet_set_cache_now (c : MemCache) (now : ℚ) (k : String) (v : Jval) (ttl : ℚ)
    (httl : 0 < ttl) :
    memGet (set_cache c now k v ttl) now k = some (serializeVal v) := by
  rw [memGet_set_cache c now k v ttl httl now]
  exact if_neg (by linarith)

theorem get_cache_eval (c : MemCache) (now : ℚ) (k : String) (raw : String)
    (h : memGet c now k = some raw) :
    get_cache c now k =
      if raw = "" then none
      else
        match loads raw with
        | some jnull => none
        | some w => some w
        | none => some (jstr raw) := by
  unfold get_cache
  rw [h]

theorem get_cache_set_not_expired (c : MemCache) (now : ℚ) (k : String) (v : Jval) (ttl : ℚ)
    (httl : 0 < ttl) (hnull : v ≠ jnull) (hstr : ∀ s, v ≠ jstr s) (T : ℚ)
    (hT : ¬ now + ttl < T) :
    get_cache (set_cache c now k v ttl) T k = some v := by
  have hmg : memGet (set_cache c now k v ttl) T k = some (dumps v) := by
    rw [memGet_set_cache c now k v ttl httl T, if_neg hT, serializeVal_eq_dumps v hstr]
  rw [get_cache_eval _ _ _ _ hmg, if_neg (dumps_ne_empty v), loads_dumps v]
  cases v with
  | jnull => exact absurd rfl hnull
  | jbool b => rfl
  | jint n => rfl
  | jstr s => rfl
  | jarr xs => rfl
  | jobj ms => rfl

/-- C2 (amended): for every cache state, key, TTL `ttl > 0` and every value
that is neither a string nor null, `set_cache` immediately followed by
`get_cache` returns a value structurally equal to the one stored — still so at
exactly `ttl` seconds after the set — and `get_cache` returns absent once the
simulated clock has advanced strictly more than `ttl` seconds past the set. -/
theorem cache_roundtrip_ttl (c : MemCache) (now : ℚ) (k : String) (v : Jval) (ttl : ℚ)
    (httl : 0 < ttl) (hnull : v ≠ jnull) (hstr : ∀ s, v ≠ jstr s) :
    get_cache (set_cache c now k v ttl) now k = some v ∧
    get_cache (set_cache c now k v ttl) (now + ttl) k = some v ∧
    ∀ t : ℚ, ttl < t → get_cache (set_cache c now k v ttl) (now + t) k = none := by
  refine ⟨get_cache_set_not_expired c now k v ttl httl hnull hstr now (by linarith),
    get_cache_set_not_expired c now k v ttl httl hnull hstr (now + ttl) (by linarith),
    fun t ht => ?_⟩
  unfold get_cache
  rw [memGet_set_cache c now k v ttl httl (now + t), if_pos (by linarith)]

/-- C2 witness: the amended round trip evaluated at a concrete state, value and
TTL. -/
theorem cache_roundtrip_ttl_witness :
    get_cache (set_cache ⟨[], []⟩ 0 "k" (jarr [jint 2]) 5) 0 "k" = some (jarr [jint 2]) ∧
    get_cache (set_cache ⟨[], []⟩ 0 "k" (jarr [jint 2]) 5) (0 + 5) "k" = some (jarr [jint 2]) ∧
    get_cache (set_cache ⟨[], []⟩ 0 "k" (jarr [jint 2]) 5) (0 + 6) "k" = none := by
  have h := cache_roundtrip_ttl ⟨[], []⟩ 0 "k" (jarr [jint 2]) 5 (by norm_num)
    (fun hx => nomatch hx) (fun s hx => nomatch hx)
  exact ⟨h.1, h.2.1, h.2.2 6 (by norm_num)⟩

/-- C2 counterexample: the claim as stated fails — a stored string comes back
as the JSON value it happens to parse to (`"1"` returns as the number 1), a
stored null comes back absent immediately, and at exactly `ttl` seconds past
the set the entry is still returned rather than absent. -/
theorem cache_roundtrip_counterexample :
    get_cache (set_cache ⟨[], []⟩ 0 "k" (jstr "1") 5) 0 "k" = some (jint 1) ∧
    jint 1 ≠ jstr "1" ∧
    get_cache (set_cache ⟨[], []⟩ 0 "k" jnull 5) 0 "k" = none ∧
    get_cache (set_cache ⟨[], []⟩ 0 "k" (jarr [jint 1]) 5) (0 + 5) "k" = some (jarr [jint 1]) := by
  have h1 : memGet (set_cache ⟨[], []⟩ 0 "k" (jstr "1") 5) 0 "k" = some "1" :=
    memGet_set_cache_now ⟨[], []⟩ 0 "k" (jstr "1") 5 (by norm_num)
  have h2 : memGet (set_cache ⟨[], []⟩ 0 "k" jnull 5) 0 "k" = some "null" :=
    memGet_set_cache_now ⟨[], []⟩ 0 "k" jnull 5 (by norm_num)
  have h3 : memGet (set_cache ⟨[], []⟩ 0 "k" (jarr [jint 1]) 5) (0 + 5) "k" = some "[1]" := by
    rw [memGet_set_cache ⟨[], []⟩ 0 "k" (jarr [jint 1]) 5 (by norm_num) (0 + 5),
      if_neg (by norm_num)]
    rfl
  refine ⟨?_, ?_, ?_, ?_⟩
  · rw [get_cache_eval _ _ _ _ h1]
    simp [show loads "1" = some (jint 1) from rfl]
  · exact fun hx => nomatch hx
  · rw [get_cache_eval _ _ _ _ h2]
    simp [show loads "null" = some jnull from rfl]
  · rw [get_cache_eval _ _ _ _ h3]
    simp [show loads "[1]" = some (jarr [jint 1]) from rfl]

/-- C10 (amended): before the TTL elapses, the cached read of a freshly set
value is absent exactly when the value is null, the empty string, or a string
whose own content deserializes to JSON null; every other falsy payload (empty
list, empty object, zero, false) serializes to a non-empty string and is
returned. -/
theorem get_cache_falsy_iff (c : MemCache) (now : ℚ) (k : String) (v : Jval) (ttl : ℚ)
    (httl : 0 < ttl) :
    (get_cache (set_cache c now k v ttl) now k = none ↔
      v = jnull ∨ ∃ s, v = jstr s ∧ (s = "" ∨ loads s = some jnull)) := by
  have hmg := memGet_set_cache_now c now k v ttl httl
  rw [get_cache_eval _ _ _ _ hmg]
  cases v with
  | jnull =>
    rw [show serializeVal jnull = "null" from rfl]
    simp [show loads "null" = some jnull from rfl]
  | jstr s =>
    rw [show serializeVal (jstr s) = s from rfl]
    by_cases hs : s = ""
    · subst hs
      simp only [if_pos rfl]
      exact ⟨fun _ => Or.inr ⟨"", rfl, Or.inl rfl⟩, fun _ => rfl⟩
    · rw [if_neg hs]
      cases hload : loads s with
      | none =>
        refine ⟨fun hx => absurd hx (by simp), ?_⟩
        rintro (hx | ⟨s2, hs2, hx | hx⟩)
        · exact absurd hx (fun h => nomatch h)
        · cases hs2
          exact absurd hx hs
        · cases hs2
          rw [hload] at hx
          exact absurd hx (by simp)
      | some w =>
        cases w with
        | jnull => exact ⟨fun _ => Or.inr ⟨s, rfl, Or.inr hload⟩, fun _ => rfl⟩
        | jbool b =>
          refine ⟨fun hx => absurd hx (by simp), ?_⟩
          rintro (hx | ⟨s2, hs2, hx | hx⟩)
          · exact absurd hx (fun h => nomatch h)
          · cases hs2
            exact absurd hx hs
          · cases hs2
            rw [hload] at hx
            exact absurd hx (by simp)
        | jint n =>
          refine ⟨fun hx => absurd hx (by simp), ?_⟩
          rintro (hx | ⟨s2, hs2, hx | hx⟩)
          · exact absurd hx (fun h => nomatch h)
          · cases hs2
            exact absurd hx hs
          · cases hs2
            rw [hload] at hx
            exact absurd hx (by simp)
        | jstr s3 =>
          refine ⟨fun hx => absurd hx (by simp), ?_⟩
          rintro (hx | ⟨s2, hs2, hx | hx⟩)
          · exact absurd hx (fun h => nomatch h)
          · cases hs2
            exact absurd hx hs
          · cases hs2
            rw [hload] at hx
            exact absurd hx (by simp)
        | jarr xs =>
          refine ⟨fun hx => absurd hx (by simp), ?_⟩
          rintro (hx | ⟨s2, hs2, hx | hx⟩)
          · exact absurd hx (fun h => nomatch h)
          · cases hs2
            exact absurd hx hs
          · cases hs2
            rw [hload] at hx
            exact absurd hx (by simp)
        | jobj ms =>
          refine ⟨fun hx => absurd hx (by simp), ?_⟩
          rintro (hx | ⟨s2, hs2, hx | hx⟩)
          · exact absurd hx (fun h => nomatch h)
          · cases hs2
            exact absurd hx hs
          · cases hs2
            rw [hload] at hx
            exact absurd hx (by simp)
  | jbool b =>
    rw [serializeVal_eq_dumps (jbool b) (fun s2 hx => nomatch hx)]
    rw [if_neg (dumps_ne_empty (jbool b)), loads_dumps (jbool b)]
    refine ⟨fun hx => absurd hx (by simp), ?_⟩
    rintro (hx | ⟨s2, hs2, _⟩)
    · exact absurd hx (fun h => nomatch h)
    · exact absurd hs2 (fun h => nomatch h)
  | jint n =>
    rw [serializeVal_eq_dumps (jint n) (fun s2 hx => nomatch hx)]
    rw [if_neg (dumps_ne_empty (jint n)), loads_dumps (jint n)]
    refine ⟨fun hx => absurd hx (by simp), ?_⟩
    rintro (hx | ⟨s2, hs2, _⟩)
    · exact absurd hx (fun h => nomatch h)
    · exact absurd hs2 (fun h => nomatch h)
  | jarr xs =>
    rw [serializeVal_eq_dumps (jarr xs) (fun s2 hx => nomatch hx)]
    rw [if_neg (dumps_ne_empty (jarr xs)), loads_dumps (jarr xs)]
    refine ⟨fun hx => absurd hx (by simp), ?_⟩
    rintro (hx | ⟨s2, hs2, _⟩)
    · exact absurd hx (fun h => nomatch h)
    · exact absurd hs2 (fun h => nomatch h)
  | jobj ms =>
    rw [serializeVal_eq_dumps (jobj ms) (fun s2 hx => nomatch hx)]
    rw [if_neg (dumps_ne_empty (jobj ms)), loads_dumps (jobj ms)]
    refine ⟨fun hx => absurd hx (by simp), ?_⟩
    rintro (hx | ⟨s2, hs2, _⟩)
    · exact absurd hx (fun h => nomatch h)
    · exact absurd hs2 (fun h => nomatch h)

/-- C10 witness: the amended characterization evaluated at the empty-string
payload. -/
theorem get_cache_falsy_iff_witness :
    get_cache (set_cache ⟨[], []⟩ 0 "k" (jstr "") 5) 0 "k" = none :=
  (get_cache_falsy_iff ⟨[], []⟩ 0 "k" (jstr "") 5 (by norm_num)).mpr
    (Or.inr ⟨"", rfl, Or.inl rfl⟩)

/-- C10 counterexample: the falsy payloads named by the claim — empty list,
empty object, zero and false — are all returned by `get_cache` before the TTL
elapses, not absent. -/
theorem get_cache_falsy_counterexample :
    get_cache (set_cache ⟨[], []⟩ 0 "k" (jarr []) 5) 0 "k" = some (jarr []) ∧
    get_cache (set_cache ⟨[], []⟩ 0 "k" (jobj []) 5) 0 "k" = some (jobj []) ∧
    get_cache (set_cache ⟨[], []⟩ 0 "k" (jint 0) 5) 0 "k" = some (jint 0) ∧
    get_cache (set_cache ⟨[], []⟩ 0 "k" (jbool false) 5) 0 "k" = some (jbool false) := by
  have h1 : memGet (set_cache ⟨[], []⟩ 0 "k" (jarr []) 5) 0 "k" = some "[]" :=
    memGet_set_cache_now ⟨[], []⟩ 0 "k" (jarr []) 5 (by norm_num)
  have h2 : memGet (set_cache ⟨[], []⟩ 0 "k" (jobj []) 5) 0 "k" = some "\x7b\x7d" :=
    memGet_set_cache_now ⟨[], []⟩ 0 "k" (jobj []) 5 (by norm_num)
  have h3 : memGet (set_cache ⟨[], []⟩ 0 "k" (jint 0) 5) 0 "k" = some "0" :=
    memGet_set_cache_now ⟨[], []⟩ 0 "k" (jint 0) 5 (by norm_num)
  have h4 : memGet (set_cache ⟨[], []⟩ 0 "k" (jbool false) 5) 0 "k" = some "false" :=
    memGet_set_cache_now ⟨[], []⟩ 0 "k" (jbool false) 5 (by norm_num)
  refine ⟨?_, ?_, ?_, ?_⟩
  · rw [get_cache_eval _ _ _ _ h1]
    simp [show loads "[]" = some (jarr []) from rfl]
  · rw [get_cache_eval _ _ _ _ h2]
    simp [show loads "\x7b\x7d" = some (jobj []) from rfl]
  · rw [get_cache_eval _ _ _ _ h3]
    simp [show loads "0" = some (jint 0) from rfl]
  · rw [get_cache_eval _ _ _ _ h4]
    simp [show loads "false" = some (jbool false) from rfl]

/-- C3: `UpstashRedisClient.set` path-encodes the payload by replacing `/` with
the literal marker `_SLASH_` and `get` never decodes it, so a value containing
`/` is corrupted: setting `"a/b"` under key `"k"` reads back `"a_SLASH_b"`. -/
theorem upstash_set_corrupts :
    upstash_get (upstash_set [] "k" "a/b") "k" = some "a_SLASH_b" ∧
    ("a_SLASH_b" : String) ≠ "a/b" := by
  exact ⟨rfl, by decide⟩

/-- C1: recording an interaction evicts nothing — the code performs a cache
READ of the key `recommendations:user:<id>` instead of a delete, and that key
is not even in the collaborative namespace.  With a pre-append cached
collaborative entry for user `u1`, a `collaborative(u1, 5)` call issued after
`append(u1, x1, like)` still returns exactly the value cached before the
append. -/
theorem record_interaction_no_eviction :
    collaborative_cached
      (record_user_interaction
        ⟨[], set_cache ⟨[], []⟩ 0 "collaborative_recommendations:u1:5"
          (jarr [jstr "stale-rec"]) 3600, 0⟩ 0 "u1" "x1" "like").cache
      0 "u1" 5 = some (jarr [jstr "stale-rec"]) ∧
    collaborative_cached
      (set_cache ⟨[], []⟩ 0 "collaborative_recommendations:u1:5"
        (jarr [jstr "stale-rec"]) 3600) 0 "u1" 5 = some (jarr [jstr "stale-rec"]) := by
  have hkey : ("collaborative_recommendations:" ++ "u1" ++ ":" ++ toString 5 : String) =
      "collaborative_recommendations:u1:5" := by rfl
  have hkey2 : ("recommendations:user:" ++ "u1" : String) = "recommendations:user:u1" := by rfl
  have hstate : (record_user_interaction
      ⟨[], set_cache ⟨[], []⟩ 0 "collaborative_recommendations:u1:5"
        (jarr [jstr "stale-rec"]) 3600, 0⟩ 0 "u1" "x1" "like").cache =
      set_cache ⟨[], []⟩ 0 "collaborative_recommendations:u1:5"
        (jarr [jstr "stale-rec"]) 3600 := by
    have hne : ("collaborative_recommendations:u1:5" : String) ≠ "recommendations:user:u1" := by
      decide
    simp only [record_user_interaction, hkey2, memGetState]
    norm_num [set_cache, memSet, listSet, listGet, hne]
  have hmg : memGet (set_cache ⟨[], []⟩ 0 "collaborative_recommendations:u1:5"
      (jarr [jstr "stale-rec"]) 3600) 0 "collaborative_recommendations:u1:5" =
      some "[\"stale-rec\"]" :=
    memGet_set_cache_now ⟨[], []⟩ 0 "collaborative_recommendations:u1:5"
      (jarr [jstr "stale-rec"]) 3600 (by norm_num)
  have hcc : collaborative_cached
      (set_cache ⟨[], []⟩ 0 "collaborative_recommendations:u1:5"
        (jarr [jstr "stale-rec"]) 3600) 0 "u1" 5 = some (jarr [jstr "stale-rec"]) := by
    unfold collaborative_cached
    rw [hkey, get_cache_eval _ _ _ _ hmg]
    simp [jtruthy, show loads "[\"stale-rec\"]" = some (jarr [jstr "stale-rec"]) from rfl]
  exact ⟨by rw [hstate]; exact hcc, hcc⟩

/-- C9: content-based filtering returns at most `k` articles and never the
seed itself, for every embedding table, distance function, seed and `k`. -/
theorem content_based_excludes_seed_le_k (embs : List (String × List ℚ))
    (dist : List ℚ → List ℚ → ℚ) (article_id : String) (k : Nat) :
    (content_based_filtering embs dist article_id k).length ≤ k ∧
    article_id ∉ content_based_filtering embs dist article_id k := by
  unfold content_based_filtering
  cases h : listGet embs article_id with
  | none => simp
  | some tv =>
    constructor
    · rw [List.length_map]
      exact List.length_take_le _ _
    · intro hm
      simp only [List.mem_map] at hm
      obtain ⟨p, hp, hpe⟩ := hm
      have hp2 := List.mem_of_mem_take hp
      rw [List.mem_insertionSort] at hp2
      have hne := (List.mem_filter.mp hp2).2
      simp at hne
      exact hne hpe

/-- C7: trending output is ordered by `(interactionCountInWindow + 1) /
(hoursSincePublished + 1)` descending for every snapshot, and on the concrete
instance the article published 1 hour ago with 10 window interactions (rank
11/2 = 5.5) precedes the one published 20 hours ago with 2 interactions (rank
3/21 = 1/7). -/
theorem trending_rank_order :
    (∀ (arts : List TrendArticle) (inters : List TrendInteraction)
      (category : Option String) (w : ℚ) (k : Nat),
      List.Pairwise (fun a b => trendRank inters w b ≤ trendRank inters w a)
        (trending_recommendations arts inters category w k)) ∧
    trending_recommendations [⟨"p2", none, 20⟩, ⟨"p1", none, 1⟩] trendTestInters none 24 5 =
      [⟨"p1", none, 1⟩, ⟨"p2", none, 20⟩] ∧
    trendRank trendTestInters 24 ⟨"p1", none, 1⟩ = 11 / 2 ∧
    trendRank trendTestInters 24 ⟨"p2", none, 20⟩ = 1 / 7 := by
  have hd1 : (decide (("p1" : String) = "p1")) = true := rfl
  have hd2 : (decide (("p2" : String) = "p1")) = false := rfl
  have hd3 : (decide (("p1" : String) = "p2")) = false := rfl
  have hd4 : (decide (("p2" : String) = "p2")) = true := rfl
  have hq : (decide ((2 : ℚ) < 24)) = true := decide_eq_true (by norm_num)
  have hr1 : trendRank trendTestInters 24 ⟨"p1", none, 1⟩ = 11 / 2 := by
    norm_num [trendRank, interactionCountInWindow, trendTestInters, List.filter, hd1, hd2, hq]
  have hr2 : trendRank trendTestInters 24 ⟨"p2", none, 20⟩ = 1 / 7 := by
    norm_num [trendRank, interactionCountInWindow, trendTestInters, List.filter, hd3, hd4, hq]
  refine ⟨?_, ?_, hr1, hr2⟩
  · intro arts inters category w k
    haveI : IsTotal TrendArticle (fun a b => trendRank inters w b ≤ trendRank inters w a) :=
      ⟨fun a b => le_total _ _⟩
    haveI : IsTrans TrendArticle (fun a b => trendRank inters w b ≤ trendRank inters w a) :=
      ⟨fun a b c h1 h2 => le_trans h2 h1⟩
    unfold trending_recommendations
    exact List.Pairwise.sublist (List.take_sublist _ _) (List.sorted_insertionSort _ _)
  · have hq2 : (decide ((20 : ℚ) < 24)) = true := decide_eq_true (by norm_num)
    have hq3 : (decide ((1 : ℚ) < 24)) = true := decide_eq_true (by norm_num)
    simp only [trending_recommendations, List.filter, hq2, hq3, Bool.and_true,
      Bool.true_and, List.insertionSort, List.orderedInsert, hr1, hr2]
    norm_num

theorem algoScoreFrom_not_mem (w len : ℚ) (recs : List String) (aid : String)
    (h : aid ∉ recs) : ∀ i, algoScoreFrom w len i recs aid = 0 := by
  induction recs with
  | nil => intro i; rfl
  | cons r rs ih =>
    intro i
    have hr : ¬ r = aid := fun he => h (he ▸ List.mem_cons_self r rs)
    rw [algoScoreFrom, if_neg hr, ih (fun hm => h (List.mem_cons_of_mem r hm)), add_zero]

theorem algoScoreFrom_eq (w len : ℚ) (recs : List String) (aid : String) (h : recs.Nodup) :
    ∀ i : ℚ, aid ∈ recs →
      algoScoreFrom w len i recs aid = w * (1 - (i + (recs.indexOf aid : ℚ)) / len) := by
  induction recs with
  | nil =>
    intro i hm
    simp at hm
  | cons r rs ih =>
    intro i hm
    by_cases hr : r = aid
    · subst hr
      have hnot : r ∉ rs := (List.nodup_cons.mp h).1
      rw [algoScoreFrom, if_pos rfl, algoScoreFrom_not_mem w len rs r hnot (i + 1)]
      simp [List.indexOf_cons_self]
    · have hm2 : aid ∈ rs := by
        cases List.mem_cons.mp hm with
        | inl he => exact absurd he.symm hr
        | inr h2 => exact h2
      rw [algoScoreFrom, if_neg hr, ih (List.nodup_cons.mp h).2 (i + 1) hm2,
        List.indexOf_cons_ne rs hr]
      push_cast
      ring_nf

theorem algoScore_eq (w : ℚ) (recs : List String) (aid : String) (h : recs.Nodup) :
    algoScore w recs aid =
      if aid ∈ recs then w * (1 - (recs.indexOf aid : ℚ) / recs.length) else 0 := by
  unfold algoScore
  by_cases hm : aid ∈ recs
  · rw [if_pos hm, algoScoreFrom_eq w _ recs aid h 0 hm, zero_add]
  · rw [if_neg hm, algoScoreFrom_not_mem w _ recs aid hm 0]

theorem algoScore_lt (w : ℚ) (hw : 0 < w) (recs recs2 : List String) (aid : String)
    (h : recs.Nodup) (h2 : recs2.Nodup) (hlen : recs2.length = recs.length)
    (hm : aid ∈ recs) (hm2 : aid ∈ recs2)
    (hidx : recs2.indexOf aid < recs.indexOf aid) :
    algoScore w recs aid < algoScore w recs2 aid := by
  rw [algoScore_eq w recs aid h, algoScore_eq w recs2 aid h2, if_pos hm, if_pos hm2, hlen]
  have hlen0 : (0 : ℚ) < recs.length := by
    exact_mod_cast List.length_pos.mpr (List.ne_nil_of_mem hm)
  have hcast : ((recs2.indexOf aid : Nat) : ℚ) < ((recs.indexOf aid : Nat) : ℚ) := by
    exact_mod_cast hidx
  have hdiv : ((recs2.indexOf aid : Nat) : ℚ) / recs.length <
      ((recs.indexOf aid : Nat) : ℚ) / recs.length := by
    gcongr
  exact mul_lt_mul_of_pos_left (sub_lt_sub_left hdiv 1) hw

/-- C8: when each contributing list has no duplicate ids, the blended hybrid
score of an article equals the sum over the algorithms returning it of
`weight * (1 - position / length)` with weights 0.4/0.3/0.2/0.1, and the score
strictly increases whenever the position of the article improves in any single
contributing list while the other three lists are unchanged. -/
theorem hybrid_blend_formula_monotone :
    ∀ (content collab trend diver : List String) (aid : String),
      content.Nodup → collab.Nodup → trend.Nodup → diver.Nodup →
      (hybridScore content collab trend diver aid =
        (if aid ∈ content then
          (0.4 : ℚ) * (1 - (content.indexOf aid : ℚ) / content.length) else 0) +
        (if aid ∈ collab then
          (0.3 : ℚ) * (1 - (collab.indexOf aid : ℚ) / collab.length) else 0) +
        (if aid ∈ trend then
          (0.2 : ℚ) * (1 - (trend.indexOf aid : ℚ) / trend.length) else 0) +
        (if aid ∈ diver then
          (0.1 : ℚ) * (1 - (diver.indexOf aid : ℚ) / diver.length) else 0)) ∧
      (∀ content2 : List String, content2.Nodup → content2.length = content.length →
        aid ∈ content → aid ∈ content2 → content2.indexOf aid < content.indexOf aid →
        hybridScore content collab trend diver aid <
          hybridScore content2 collab trend diver aid) ∧
      (∀ collab2 : List String, collab2.Nodup → collab2.length = collab.length →
        aid ∈ collab → aid ∈ collab2 → collab2.indexOf aid < collab.indexOf aid →
        hybridScore content collab trend diver aid <
          hybridScore content collab2 trend diver aid) ∧
      (∀ trend2 : List String, trend2.Nodup → trend2.length = trend.length →
        aid ∈ trend → aid ∈ trend2 → trend2.indexOf aid < trend.indexOf aid →
        hybridScore content collab trend diver aid <
          hybridScore content collab trend2 diver aid) ∧
      (∀ diver2 : List String, diver2.Nodup → diver2.length = diver.length →
        aid ∈ diver → aid ∈ diver2 → diver2.indexOf aid < diver.indexOf aid →
        hybridScore content collab trend diver aid <
          hybridScore content collab trend diver2 aid) := by
  intro content collab trend diver aid hc hl ht hd
  refine ⟨?_, ?_, ?_, ?_, ?_⟩
  · unfold hybridScore
    rw [algoScore_eq _ content aid hc, algoScore_eq _ collab aid hl,
      algoScore_eq _ trend aid ht, algoScore_eq _ diver aid hd]
  · intro c2 h2 hlen hm hm2 hidx
    unfold hybridScore
    have := algoScore_lt (0.4 : ℚ) (by norm_num) content c2 aid hc h2 hlen hm hm2 hidx
    linarith
  · intro c2 h2 hlen hm hm2 hidx
    unfold hybridScore
    have := algoScore_lt (0.3 : ℚ) (by norm_num) collab c2 aid hl h2 hlen hm hm2 hidx
    linarith
  · intro c2 h2 hlen hm hm2 hidx
    unfold hybridScore
    have := algoScore_lt (0.2 : ℚ) (by norm_num) trend c2 aid ht h2 hlen hm hm2 hidx
    linarith
  · intro c2 h2 hlen hm hm2 hidx
    unfold hybridScore
    have := algoScore_lt (0.1 : ℚ) (by norm_num) diver c2 aid hd h2 hlen hm hm2 hidx
    linarith

/-- C8 witness: the hypotheses and the strict increase evaluated on concrete
lists — moving `"b"` from position 1 to position 0 of the content list raises
its blended score. -/
theorem hybrid_blend_formula_monotone_witness :
    (["a", "b"] : List String).Nodup ∧ ("b" : String) ∈ (["a", "b"] : List String) ∧
    (["b", "a"] : List String).indexOf "b" < (["a", "b"] : List String).indexOf "b" ∧
    hybridScore ["a", "b"] ["a"] [] [] "b" < hybridScore ["b", "a"] ["a"] [] [] "b" := by
  refine ⟨by decide, by decide, by decide, ?_⟩
  exact (hybrid_blend_formula_monotone ["a", "b"] ["a"] [] [] "b"
    (by decide) (by decide) (by decide) (by decide)).2.1 ["b", "a"]
    (by decide) (by decide) (by decide) (by decide) (by decide)

theorem dedupByUrl_length_le (seen : List String) (l : List NArt) :
    (dedupByUrl seen l).length ≤ l.length := by
  induction l generalizing seen with
  | nil => simp [dedupByUrl]
  | cons h t ih =>
    by_cases hm : h.url ∈ seen
    · simp only [dedupByUrl, hm, if_true]
      exact le_trans (ih seen) (Nat.le_succ _)
    · simp only [dedupByUrl, hm, if_false, List.length_cons]
      exact Nat.succ_le_succ (ih _)

theorem dedupByUrl_spec (seen : List String) (l : List NArt) :
    ((dedupByUrl seen l).map (fun a => a.url)).Nodup ∧
    ∀ a ∈ dedupByUrl seen l, a.url ∉ seen ∧ l.find? (fun b => b.url = a.url) = some a := by
  induction l generalizing seen with
  | nil => simp [dedupByUrl]
  | cons h t ih =>
    by_cases hm : h.url ∈ seen
    · simp only [dedupByUrl, hm, if_true]
      obtain ⟨ih1, ih2⟩ := ih seen
      refine ⟨ih1, fun a ha => ?_⟩
      obtain ⟨ha1, ha2⟩ := ih2 a ha
      have hne : ¬ (h.url = a.url) := fun he => ha1 (he ▸ hm)
      refine ⟨ha1, ?_⟩
      rw [List.find?_cons_of_neg _ (by simp [hne])]
      exact ha2
    · simp only [dedupByUrl, hm, if_false]
      obtain ⟨ih1, ih2⟩ := ih (h.url :: seen)
      constructor
      · rw [List.map_cons, List.nodup_cons]
        refine ⟨fun hmem => ?_, ih1⟩
        obtain ⟨a, ha, hae⟩ := List.mem_map.mp hmem
        exact (ih2 a ha).1 (hae ▸ List.mem_cons_self _ _)
      · intro a ha
        rcases List.mem_cons.mp ha with rfl | ha2
        · refine ⟨hm, ?_⟩
          rw [List.find?_cons_of_pos _ (by simp)]
        · obtain ⟨ha1, ha2'⟩ := ih2 a ha2
          have hne : ¬ (h.url = a.url) := fun he => ha1 (he ▸ List.mem_cons_self _ _)
          refine ⟨fun hs => ha1 (List.mem_cons_of_mem _ hs), ?_⟩
          rw [List.find?_cons_of_neg _ (by simp [hne])]
          exact ha2'

theorem find?_take_eq_some {p : NArt → Bool} {l : List NArt} {n : Nat} {a : NArt}
    (h : (l.take n).find? p = some a) : l.find? p = some a := by
  induction l generalizing n with
  | nil => simp at h
  | cons x t ih =>
    cases n with
    | zero => simp at h
    | succ m =>
      rw [List.take_succ_cons] at h
      by_cases hp : p x
      · rw [List.find?_cons_of_pos _ hp] at h ⊢
        exact h
      · rw [List.find?_cons_of_neg _ hp] at h ⊢
        exact ih h

theorem get_demo_news_sublist (query category : Option String) (page page_size : Nat) :
    List.Sublist (get_demo_news query category page page_size) demo_articles := by
  unfold get_demo_news
  cases query with
  | none =>
    cases category with
    | none => exact (List.take_sublist _ _).trans (List.drop_sublist _ _)
    | some c =>
      exact ((List.take_sublist _ _).trans (List.drop_sublist _ _)).trans
        (List.filter_sublist _)
  | some q =>
    cases category with
    | none =>
      exact ((List.take_sublist _ _).trans (List.drop_sublist _ _)).trans
        (List.filter_sublist _)
    | some c =>
      exact ((List.take_sublist _ _).trans (List.drop_sublist _ _)).trans
        ((List.filter_sublist _).trans (List.filter_sublist _))

theorem demo_nodup_urls (query category : Option String) (page page_size : Nat) :
    ((get_demo_news query category page page_size).map (fun a => a.url)).Nodup := by
  have hbase : (demo_articles.map (fun a => a.url)).Nodup := by decide
  exact List.Nodup.sublist
    ((get_demo_news_sublist query category page page_size).map (fun a => a.url)) hbase

/-- C4: for every provider configuration, query and pagination, `fetch` returns
at most `page_size` articles with pairwise-distinct urls, and whenever the
providers supplied anything at all, each returned article is the FIRST article
carrying its url in the priority-ordered combined provider output. -/
theorem fetch_unique_urls (newsapi gnews nytimes ddg : Provider) (query : String)
    (page page_size : Nat) :
    (fetch_news_by_query newsapi gnews nytimes ddg query page page_size).length ≤ page_size ∧
    ((fetch_news_by_query newsapi gnews nytimes ddg query page page_size).map
      (fun a => a.url)).Nodup ∧
    (combinedResults newsapi gnews nytimes ddg page_size ≠ [] →
      ∀ a ∈ fetch_news_by_query newsapi gnews nytimes ddg query page page_size,
        (combinedResults newsapi gnews nytimes ddg page_size).find?
          (fun b => b.url = a.url) = some a) := by
  unfold fetch_news_by_query
  by_cases hres : combinedResults newsapi gnews nytimes ddg page_size = []
  · rw [if_pos hres]
    refine ⟨?_, demo_nodup_urls _ _ _ _, fun hne => absurd hres hne⟩
    unfold get_demo_news
    exact List.length_take_le _ _
  · rw [if_neg hres]
    obtain ⟨hnodup, hspec⟩ := dedupByUrl_spec []
      ((combinedResults newsapi gnews nytimes ddg page_size).take page_size)
    refine ⟨?_, hnodup, fun _ a ha => ?_⟩
    · exact le_trans (dedupByUrl_length_le _ _) (List.length_take_le _ _)
    · exact find?_take_eq_some ((hspec a ha).2)

/-- C4 witness: the guarantees evaluated on a concrete provider set where one
provider returns a duplicated url — the duplicate is dropped and the first
occurrence survives. -/
theorem fetch_unique_urls_witness :
    combinedResults pDup pEmpty pEmpty pEmpty 3 ≠ [] ∧
    fetch_news_by_query pDup pEmpty pEmpty pEmpty "q" 1 3 =
      [⟨"i1", "t1", "u1", "s1", "c1"⟩, ⟨"i3", "t3", "u2", "s3", "c3"⟩] ∧
    (∀ a ∈ fetch_news_by_query pDup pEmpty pEmpty pEmpty "q" 1 3,
      (combinedResults pDup pEmpty pEmpty pEmpty 3).find?
        (fun b => b.url = a.url) = some a) := by
  refine ⟨by decide, by decide, ?_⟩
  exact (fetch_unique_urls pDup pEmpty pEmpty pEmpty "q" 1 3).2.2 (by decide)

/-- C5: the code considers only the FIRST similar user (the body of the
similar-users loop returns during its first iteration), so on the failing
input it recommends nothing — `V1`, the closest neighbor, has no unseen
article — whereas the claimed algorithm, summing Jaccard weights over up to 10
neighbors, recommends `c1` with score 1/3 contributed by `V2`. -/
theorem collaborative_first_neighbor_only :
    collaborative_filtering_db c5Arts c5Inters "U" 5 = some [] ∧
    collaborative_filtering_spec c5Inters "U" 5 = [("c1", 1 / 3)] := by
  constructor
  · rfl
  · obtain ⟨q, hq, hq3⟩ :
        ∃ q, collaborative_filtering_spec c5Inters "U" 5 = [("c1", q)] ∧ q = 1 / 3 :=
      ⟨_, rfl, by
        simp only [show similarUsers c5Inters "U" = [("V1", 2, 2), ("V2", 1, 2)] from rfl,
          show userArticles c5Inters "U" = ["a1", "a2"] from rfl, List.map, List.filter,
          show decide (("a1" : String) ∈ (["a1", "a2"] : List String)) = true from rfl,
          show decide (("c1" : String) ∈ (["a1", "a2"] : List String)) = false from rfl,
          show userArticles c5Inters "V2" = ["a1", "c1"] from rfl]
        norm_num⟩
    rw [hq, hq3]

/-- C6: with a non-empty base pool (content-based results of the seed `s`),
`diverse_recommendations` returns no list at all — the greedy topic pass is
dead code behind an unconditional return, and the function falls through to
Python `None` — whereas the claimed greedy diversification of the same pool
returns `b`. -/
theorem diverse_dead_code_returns_none :
    content_based_filtering c6Embs zeroDist "s" 2 = ["b"] ∧
    diverse_recommendations_db c6Arts c6Embs zeroDist [] none (some "s") 1 = none ∧
    diversify c6Arts 1 (content_based_filtering c6Embs zeroDist "s" 2) = ["b"] := by
  refine ⟨rfl, rfl, rfl⟩

end NewsRec
